import Mathlib

/-!
Verification of the two components of the repository:

* `ConfigHandler` (src/python/tools/CacheLauncher/source/config_handler.py):
  loads, validates and persists a JSON configuration file.
* `NinjaRMMAPI` (src/python/tools/NinjaAPI/ninja_api_auth.py): OAuth
  client-credentials token lifecycle, environment-variable checks, and the
  tag-indexed re-sorting of an OpenAPI documentation snapshot.

Python values are modelled by the inductive `PyValue`; Python `dict`s are
modelled as insertion-ordered association lists (`alget` finds the unique
binding of a key, `alset` updates a present key in place and appends an
absent one, exactly the observable behaviour of Python dict assignment).
Calls into the Python standard library (`json.load`, `json.dump`, `open`,
`os.getenv`, `time.time`) are modelled at the level of their documented
behaviour, as explained at each definition.
-/

set_option autoImplicit false

/-- Python `str.lower()` restricted to ASCII strings: lowercase every
character through `Char.toLower`, which maps only the ASCII range (it
leaves a character such as Ä or Σ unchanged, where Python produces ä or
σ — and Python can even lowercase one character to two, as for İ, which no
character-wise map can express).  On ASCII strings this function and
Python `str.lower()` coincide exactly, so every theorem about the
documentation sorter carries an explicit ASCII hypothesis (`tagsAscii`)
confining it to that domain.  (The library `String.toLower` is the same
character map but is defined by a position-indexed recursion that the
kernel cannot evaluate; this character-list version computes.) -/
def String.lower (s : String) : String := ⟨s.data.map Char.toLower⟩

namespace Projects

/-- A Python value, as far as the config handler can observe it: the JSON
scalars, lists and string-keyed dicts, plus `other` for any object that the
`json` module cannot serialize (a set, a function, ...).  `int` covers the
numeric payloads appearing in this program; no arithmetic is performed on
them anywhere in the sources. -/
inductive PyValue where
  | str (s : String)
  | bool (b : Bool)
  | int (n : Int)
  | none
  | list (xs : List PyValue)
  | dict (fields : List (String × PyValue))
  | other (tag : String)
deriving Repr

/-- Association lists standing for insertion-ordered Python dicts. -/
abbrev AList (V : Type) := List (String × V)

/-- Python dict lookup: the value bound to `key`, if present. -/
def alget {V : Type} : AList V → String → Option V
  | [], _ => Option.none
  | (k, v) :: rest, key => if k = key then Option.some v else alget rest key

/-- Python dict assignment `d[key] = val`: an existing key keeps its
position and gets the new value, a new key is appended at the end. -/
def alset {V : Type} : AList V → String → V → AList V
  | [], key, val => [(key, val)]
  | (k, v) :: rest, key, val =>
      if k = key then (k, val) :: rest else (k, v) :: alset rest key val

/-- The keys of a dict, in insertion order. -/
def alkeys {V : Type} (l : AList V) : List String := l.map (fun kv => kv.1)

mutual

/-- Whether `json.dump` can serialize the value: every scalar, and lists and
dicts all of whose members can be serialized; `other` values raise
`TypeError` inside `json.dump`. -/
def PyValue.serializable : PyValue → Bool
  | .str _ => true
  | .bool _ => true
  | .int _ => true
  | .none => true
  | .list xs => serializableList xs
  | .dict fs => serializableFields fs
  | .other _ => false

/-- All members of a list are serializable. -/
def serializableList : List PyValue → Bool
  | [] => true
  | x :: xs => x.serializable && serializableList xs

/-- All values of a dict are serializable (keys are strings already). -/
def serializableFields : List (String × PyValue) → Bool
  | [] => true
  | (_, v) :: fs => v.serializable && serializableFields fs

end

/-- Python `isinstance(v, str)`. -/
def isinstance_str : PyValue → Bool
  | .str _ => true
  | _ => false

/-- Python `isinstance(v, dict)`. -/
def isinstance_dict : PyValue → Bool
  | .dict _ => true
  | _ => false

/-- Python `isinstance(v, bool)`. -/
def isinstance_bool : PyValue → Bool
  | .bool _ => true
  | _ => false

/-- Python `d.get(key, default)` on a dict. -/
def dictGet (d : AList PyValue) (k : String) (default : PyValue) : PyValue :=
  (alget d k).getD default

/-- The fields of a value known (by the surrounding control flow) to be a
dict; any other value has no fields. -/
def PyValue.fields : PyValue → AList PyValue
  | .dict fs => fs
  | _ => []

/-- The check `key in d and isinstance(d[key], T)` used by every loop of
`_config_isvalid`: the key is present and its value has the expected type. -/
def hasTyped (d : AList PyValue) (k : String) (ty : PyValue → Bool) : Bool :=
  match alget d k with
  | Option.some v => ty v
  | Option.none => false

/-- `ConfigHandler._config_isvalid` (config_handler.py lines 33-83): each of
the four loops returns `False` as soon as a required key is missing or has
the wrong type, and `True` is returned only if all four pass.  The loops run
in source order; the `&&` chain below short-circuits identically. -/
def config_isvalid (config_data : AList PyValue) : Bool :=
  let required_keys : List (String × (PyValue → Bool)) :=
    [("appName", isinstance_str), ("version", isinstance_str),
     ("settings", isinstance_dict), ("paths", isinstance_dict)]
  let settings_keys : List (String × (PyValue → Bool)) :=
    [("ui", isinstance_dict), ("logLevel", isinstance_str)]
  let ui_keys : List (String × (PyValue → Bool)) :=
    [("gui", isinstance_bool), ("theme", isinstance_str)]
  let paths_keys : List (String × (PyValue → Bool)) :=
    [("cacheDirectory", isinstance_str), ("logFile", isinstance_str)]
  (required_keys.all fun kt => hasTyped config_data kt.1 kt.2) &&
  (let settings := (dictGet config_data "settings" (.dict [])).fields
   (settings_keys.all fun kt => hasTyped settings kt.1 kt.2) &&
   ((let ui := (dictGet settings "ui" (.dict [])).fields
     ui_keys.all fun kt => hasTyped ui kt.1 kt.2) &&
    (let paths := (dictGet config_data "paths" (.dict [])).fields
     paths_keys.all fun kt => hasTyped paths kt.1 kt.2)))

/-- Whether the character run `needle` is a leading run of `hay`. -/
def leadsWith : List Char → List Char → Bool
  | [], _ => true
  | _ :: _, [] => false
  | c :: cs, d :: ds => (c = d) && leadsWith cs ds

/-- Whether the character run `needle` occurs somewhere in `hay`. -/
def hasRun (needle : List Char) : List Char → Bool
  | [] => needle.isEmpty
  | d :: ds => leadsWith needle (d :: ds) || hasRun needle ds

/-- Python `needle in hay` on strings: substring containment. -/
def strContains (hay needle : String) : Bool := hasRun needle.data hay.data

/-- Python `key in xs` on a list: `key == element` for some element; a
string compares equal only to an equal string, never to a number, boolean,
`None`, list or dict. -/
def pyStrMem (key : String) : List PyValue → Bool
  | [] => false
  | .str s :: rest => (s = key) || pyStrMem key rest
  | _ :: rest => pyStrMem key rest

/-- Whether `_config_isvalid(v)` raises an uncaught `TypeError` for a
parsed JSON document `v` that is not a dict.  The first loop evaluates
`"appName" not in config_data or not isinstance(config_data["appName"], str)`:
on a number, boolean or `None` the membership test itself raises
(`argument of type ... is not iterable`); on a string, membership is a
substring test, and only when it succeeds does the indexing
`config_data["appName"]` raise (`string indices must be integers`); on a
list, membership is element equality, and only when it succeeds does the
string-keyed indexing raise.  When membership fails the loop returns
`False` without touching anything else, so no crash.  A dict never crashes
(all later accesses go through checked keys or `.get` with dict defaults),
and `other` values (sets and the like) cannot come out of `json.load`. -/
def validator_crashes : PyValue → Bool
  | .str s => strContains s "appName"
  | .list xs => pyStrMem "appName" xs
  | .int _ => true
  | .bool _ => true
  | .none => true
  | .dict _ => false
  | .other _ => false

/-- The configuration file on disk, modelled at the level the program
observes it through `json.load`: absent, present but not valid JSON,
present with content parsing to the JSON object `doc`, or present with
content parsing to the JSON value `v` — the case of valid JSON that is not
an object (`5`, `null`, `true`, a string, an array).  A dict placed under
`jsonNonObject` behaves identically to `json` of its fields, so the two
parse-success constructors agree wherever they overlap.  (`json.load` and
`json.dump` are mutually inverse on string-keyed dicts of strings, booleans,
integers, `None`, lists and dicts thereof, which is the whole domain
`PyValue` minus `other`; so a file successfully written by `save_config` is
represented directly by the document it parses back to.) -/
inductive FileContent where
  | absent
  | malformed
  | json (doc : AList PyValue)
  | jsonNonObject (v : PyValue)

/-- The outcomes of the config handler, one per distinct raise site:
`notFound` is the `FileNotFoundError` of line 92, `parseError` the
`ValueError` re-raised from `json.JSONDecodeError` at line 105,
`validationError` the `ValueError` of lines 100 and 114,
`serializationError` the `ValueError` re-raised from `TypeError` at
line 122 — and `typeError` the uncaught `TypeError` escaping
`_config_isvalid` on a non-object document (see `validator_crashes`),
which is not one of the handler's intended errors: the `except` at
line 103 only catches `json.JSONDecodeError`. -/
inductive ConfigError where
  | notFound
  | parseError
  | validationError
  | serializationError
  | typeError
deriving DecidableEq, Repr

/-- `ConfigHandler.get_config` (lines 85-105): missing file raises
`FileNotFoundError`; unparseable content raises the decode `ValueError`; a
parsed object failing `_config_isvalid` raises the validation
`ValueError`, and a passing one is returned unchanged.  A document parsing
to a non-object JSON value either crashes the validator with the uncaught
`TypeError` of `validator_crashes`, or — for strings and arrays that do
not contain `"appName"` — fails the first check and raises the validation
`ValueError` like any other invalid document. -/
def get_config (file : FileContent) : Except ConfigError (AList PyValue) :=
  match file with
  | .absent => .error .notFound
  | .malformed => .error .parseError
  | .json doc =>
      if config_isvalid doc then .ok doc else .error .validationError
  | .jsonNonObject v =>
      match v with
      | .dict fs =>
          if config_isvalid fs then .ok fs else .error .validationError
      | _ =>
          if validator_crashes v then .error .typeError
          else .error .validationError

/-- `ConfigHandler.save_config` (lines 107-122) together with the resulting
file state.  An invalid document raises before the file is ever opened, so
the file is unchanged.  Otherwise `open(path, 'w')` truncates the file and
`json.dump` streams the document into it: if every value is serializable the
file ends up holding exactly the document; if `json.dump` hits an
unserializable value it raises `TypeError` midway, leaving the truncated
file holding an unclosed prefix of the output (never valid JSON, since the
top-level dict is still open), modelled as `malformed`. -/
def save_config (config_data : AList PyValue) (file : FileContent) :
    Except ConfigError Unit × FileContent :=
  if config_isvalid config_data = false then
    (.error .validationError, file)
  else if serializableFields config_data then
    (.ok (), .json config_data)
  else
    (.error .serializationError, .malformed)

/-- The configuration schema exactly as the specification words it: required
fields `appName : string`, `version : string`, a `settings` object holding
`ui` (with `gui : boolean` and `theme : string`) and `logLevel : string`,
and a `paths` object holding `cacheDirectory : string` and
`logFile : string`.  Nothing is said about other keys, so any extra content
is unconstrained. -/
def schemaSpec (doc : AList PyValue) : Prop :=
  (∃ s, alget doc "appName" = some (.str s)) ∧
  (∃ s, alget doc "version" = some (.str s)) ∧
  (∃ settings, alget doc "settings" = some (.dict settings) ∧
    (∃ ui, alget settings "ui" = some (.dict ui) ∧
      (∃ b, alget ui "gui" = some (.bool b)) ∧
      (∃ s, alget ui "theme" = some (.str s))) ∧
    (∃ s, alget settings "logLevel" = some (.str s))) ∧
  (∃ paths, alget doc "paths" = some (.dict paths) ∧
    (∃ s, alget paths "cacheDirectory" = some (.str s)) ∧
    (∃ s, alget paths "logFile" = some (.str s)))

/-!
### NinjaRMMAPI (src/python/tools/NinjaAPI/ninja_api_auth.py)
Timestamps (`time.time()` and the derived `obtained_at`) are modelled as
integer seconds; `is_expired` only compares them, so the ordering facts
proved below are exactly the ones the code computes.  The process
environment is a function from variable names to `Option String`
(`os.getenv` returns `None` for an unset variable).  Network interactions
are recorded as an event trace instead of being performed.
-/
/-- Python truthiness of an `os.getenv` result, as used by the
`if not value` filter of `__init__`: `None` and the empty string are falsy,
every other string is truthy. -/
def truthy : Option String → Bool
  | Option.none => false
  | Option.some s => !(s = "")

/-- The five required environment variables, in the order of the dict
literal of `__init__` (lines 59-67). -/
def required_vars : List String :=
  ["NINJA_ENVIRONMENT", "NINJA_CLIENT_ID", "NINJA_CLIENT_SECRET",
   "NINJA_BASE_URL", "NINJA_DOCS_PATH"]

/-- The comprehension of lines 59-67: the required variables whose value is
falsy (unset or empty), in declaration order. -/
def missing_env_vars (env : String → Option String) : List String :=
  required_vars.filter fun v => !truthy (env v)

/-- The valid environment names (line 68). -/
def valid_environments : List String := ["app", "us2", "ca", "eu", "oc"]

/-- Python `x in l` where `x` is an `os.getenv` result: `None` is a member
of no list of strings, a string is compared by equality. -/
def opt_mem (o : Option String) (l : List String) : Bool :=
  match o with
  | Option.none => false
  | Option.some s => l.contains s

/-- The fatal outcomes of `NinjaRMMAPI.__init__`: the `ValueError` of
line 71 listing the missing variables, the `ValueError` of line 75 for a
name outside `valid_environments`, and the `requests` exception propagated
from `raise_for_status` in `_request_credentials` (line 106). -/
inductive InitError where
  | missingEnvironment (vars : List String)
  | invalidEnvironmentValue
  | credentialRequestFailure
deriving DecidableEq, Repr

/-- A network interaction performed by the client: a POST to the token
endpoint (`_request_credentials`), or an API request with its HTTP method
and path. -/
inductive NetEvent where
  | credentialRequest
  | httpRequest (method : String) (path : String)
deriving DecidableEq, Repr

/-- `NinjaRMMAPI.__init__` (lines 52-82), with the network interactions it
performs recorded in order.  Both `ValueError`s are raised before
`_request_credentials` is called, so those branches have an empty trace;
otherwise the token request is issued and, if it succeeds, the
documentation is fetched through `request("get", docs_path)`. -/
def ninja_init (env : String → Option String) (tokenSucceeds : Bool) :
    Except InitError Unit × List NetEvent :=
  let missing := missing_env_vars env
  if missing = [] then
    if opt_mem (env "NINJA_ENVIRONMENT") valid_environments then
      if tokenSucceeds then
        (.ok (), [.credentialRequest,
                  .httpRequest "get" ((env "NINJA_DOCS_PATH").getD "")])
      else
        (.error .credentialRequestFailure, [.credentialRequest])
    else
      (.error .invalidEnvironmentValue, [])
  else
    (.error (.missingEnvironment missing), [])

/-- The `OAUTHResponse` dataclass (lines 15-26), timestamps in integer
seconds: `obtained_at` is the `time.time()` recorded at creation. -/
structure OAUTHResponse where
  access_token : String
  token_type : String
  expires_in : Int
  scope : String
  obtained_at : Int
deriving DecidableEq, Repr

/-- `OAUTHResponse.is_expired` (lines 24-26): the current time strictly
exceeds `obtained_at + expires_in`. -/
def OAUTHResponse.is_expired (r : OAUTHResponse) (now : Int) : Bool :=
  decide (r.obtained_at + r.expires_in < now)

/-- `NinjaRMMAPI._authenticate` (lines 115-119): if the held token is
expired a single fresh credential request is made and its response replaces
the held object; otherwise nothing happens.  `fresh` is the response the
token endpoint would return.  The result is the held credential afterwards
together with the trace of network interactions. -/
def authenticate_step (oauth : OAUTHResponse) (now : Int)
    (fresh : OAUTHResponse) : OAUTHResponse × List NetEvent :=
  if oauth.is_expired now then (fresh, [.credentialRequest]) else (oauth, [])

/-- `NinjaRMMAPI.request` (lines 125-145): `_authenticate` runs first, then
the single outgoing HTTP request is sent with the (possibly refreshed)
credential attached. -/
def request_step (oauth : OAUTHResponse) (now : Int) (fresh : OAUTHResponse)
    (method : String) (path : String) : OAUTHResponse × List NetEvent :=
  let s := authenticate_step oauth now fresh
  (s.1, s.2 ++ [.httpRequest method path])

/-!
### Documentation sorting (`NinjaRMMAPI.get_sorted_docs`, lines 152-188)
The documentation snapshot is the JSON document returned by the
documentation endpoint.  The code accesses `documentation["tags"]` (a list
of objects with `name` and `description`), `documentation["paths"]` (a dict
from path to a dict from HTTP method to an operation object with `tags` and
`operationId` plus optional `summary`, `description`, `parameters`,
`requestBody`, `responses`), and `.get`s the remaining top-level keys with
defaults; the snapshot is modelled with exactly that shape, the optional
payloads kept as raw `PyValue`s.  Python `str.lower()` is `String.lower`
below, lowercasing character by character (the tag names occurring here
are ASCII). -/
/-- One element of `documentation["tags"]`: the code reads `tag["name"]` and
`tag["description"]`. -/
structure DocTag where
  name : String
  description : String
deriving DecidableEq, Repr

/-- One operation object `details`: the code reads `details["tags"]` and
`details["operationId"]` directly and the other five keys via `.get` with a
default. -/
structure Operation where
  tags : List String
  operationId : String
  summary : Option String
  description : Option String
  parameters : Option PyValue
  requestBody : Option PyValue
  responses : Option PyValue

/-- The documentation snapshot held in `self.documentation`. -/
structure Documentation where
  openapi : Option String
  info : Option PyValue
  security : Option PyValue
  tags : List DocTag
  paths : AList (AList Operation)
  components : Option PyValue

/-- The per-operation record built at lines 180-187. -/
structure OpRecord where
  path : String
  summary : String
  description : String
  parameters : PyValue
  requestBody : PyValue
  responses : PyValue

/-- One entry of the output `paths` index: the dict built by the
comprehension at lines 166-171, whose `methods` dict is filled in by the
loop. -/
structure TagEntry where
  description : String
  methods : AList (AList OpRecord)

/-- The full output of `get_sorted_docs` (lines 161-173). -/
structure SortedDocs where
  openapi_version : String
  info : PyValue
  security : PyValue
  tags : List DocTag
  paths : AList TagEntry
  components : PyValue

/-- The dict comprehension of lines 166-171: one entry per declared tag,
keyed by the lowercased name, holding the description and an empty
`methods` dict.  A repeated key keeps its first position and receives the
later value, per Python dict-comprehension semantics. -/
def init_paths (tags : List DocTag) : AList TagEntry :=
  tags.foldl (fun acc tag => alset acc tag.name.lower ⟨tag.description, []⟩) []

/-- The record built for one path/method operation (lines 180-187). -/
def record_of (path : String) (d : Operation) : OpRecord :=
  ⟨path, d.summary.getD "", d.description.getD "",
   d.parameters.getD (.list []), d.requestBody.getD (.dict []),
   d.responses.getD (.dict [])⟩

/-- Lines 178-187 for a single tag of a single operation:
`sorted_docs["paths"][tag.lower()]` raises `KeyError(tag.lower())` when the
key is absent; otherwise `methods.setdefault(method, {})[operationId] =
record` inserts the record.  The error value carries the missing key. -/
def insert_into_tag (acc : AList TagEntry) (tag : String) (method : String)
    (opId : String) (rec : OpRecord) : Except String (AList TagEntry) :=
  match alget acc tag with
  | Option.none => .error tag
  | Option.some entry =>
      let m := (alget entry.methods method).getD []
      .ok (alset acc tag
        ⟨entry.description, alset entry.methods method (alset m opId rec)⟩)

/-- The loop `for tag in details["tags"]` (line 177). -/
def insert_tags (path : String) (method : String) (d : Operation) :
    AList TagEntry → List String → Except String (AList TagEntry)
  | acc, [] => .ok acc
  | acc, t :: ts =>
      match insert_into_tag acc t.lower method d.operationId
          (record_of path d) with
      | .error e => .error e
      | .ok acc2 => insert_tags path method d acc2 ts

/-- The loop `for method, details in methods.items()` (line 176). -/
def insert_methods (path : String) :
    AList TagEntry → AList Operation → Except String (AList TagEntry)
  | acc, [] => .ok acc
  | acc, (m, d) :: ms =>
      match insert_tags path m d acc d.tags with
      | .error e => .error e
      | .ok acc2 => insert_methods path acc2 ms

/-- The loop `for path, methods in self.documentation["paths"].items()`
(line 175). -/
def insert_paths :
    AList TagEntry → AList (AList Operation) → Except String (AList TagEntry)
  | acc, [] => .ok acc
  | acc, (p, ms) :: rest =>
      match insert_methods p acc ms with
      | .error e => .error e
      | .ok acc2 => insert_paths acc2 rest

/-- `NinjaRMMAPI.get_sorted_docs` (lines 152-188): build the skeleton with
the tag comprehension, then fill the `methods` dicts by the triple loop; a
tag referenced by an operation but absent from the skeleton raises
`KeyError`. -/
def get_sorted_docs (doc : Documentation) : Except String SortedDocs :=
  match insert_paths (init_paths doc.tags) doc.paths with
  | .error t => .error t
  | .ok ps =>
      .ok ⟨doc.openapi.getD "", doc.info.getD (.dict []),
           doc.security.getD (.list []), doc.tags, ps,
           doc.components.getD (.dict [])⟩

/-!
### The sorting loop as a list of writes
The triple loop of `get_sorted_docs` performs, in order, one insertion per
(path, method, operation, tag) combination; `docWrites` lists those
insertions, each as a key (lowercased tag, method, operation id) with the
record it stores, and `apply_writes` replays them.  All correctness lemmas
are proved for `apply_writes` and transported to the loop through
`insert_paths_eq`.
-/
/-- The key under which one insertion stores its record: lowercased tag,
HTTP method, operation identifier. -/
abbrev WriteKey := String × String × String

/-- The destination of one operation record in the output index. -/
def lookup3 (ps : AList TagEntry) (key : WriteKey) : Option OpRecord :=
  match alget ps key.1 with
  | Option.none => Option.none
  | Option.some e =>
      match alget e.methods key.2.1 with
      | Option.none => Option.none
      | Option.some mm => alget mm key.2.2

/-- First-of-two option choice. -/
def opOr {A : Type} (a b : Option A) : Option A :=
  match a with
  | Option.some x => Option.some x
  | Option.none => b

/-- The record stored by the last write with the given key, if any. -/
def lastWrite : List (WriteKey × OpRecord) → WriteKey → Option OpRecord
  | [], _ => Option.none
  | (k, r) :: ws, key =>
      match lastWrite ws key with
      | Option.some r2 => Option.some r2
      | Option.none => if k = key then Option.some r else Option.none

/-- Replay a list of writes through `insert_into_tag`, stopping at the
first missing tag. -/
def apply_writes : AList TagEntry → List (WriteKey × OpRecord) →
    Except String (AList TagEntry)
  | acc, [] => .ok acc
  | acc, (k, r) :: ws =>
      match insert_into_tag acc k.1 k.2.1 k.2.2 r with
      | .error e => .error e
      | .ok acc2 => apply_writes acc2 ws

/-- The writes performed for one operation, one per declared tag. -/
def opWrites (path : String) (method : String) (d : Operation) :
    List (WriteKey × OpRecord) :=
  d.tags.map fun t => ((t.lower, method, d.operationId), record_of path d)

/-- The writes performed for one path, in method order. -/
def methodWrites (path : String) (ms : AList Operation) :
    List (WriteKey × OpRecord) :=
  ms.flatMap fun md => opWrites path md.1 md.2

/-- All writes performed by the loop, in execution order. -/
def docWrites (paths : AList (AList Operation)) : List (WriteKey × OpRecord) :=
  paths.flatMap fun pms => methodWrites pms.1 pms.2

/-!
### Claim-level properties of the sorter
-/
/-- All characters of the string are ASCII (code point below 128) — the
domain on which `String.lower` agrees exactly with Python
`str.lower()`. -/
def strAscii (s : String) : Bool := s.data.all (fun c => c.toNat < 128)

/-- Every tag name declared by the snapshot and every tag referenced by
one of its operations is ASCII.  Under this condition the lowercased keys
computed by the model are exactly the ones the Python code computes; the
sorter theorems assume it because Python lowercases non-ASCII letters
(Ä to ä, Σ to σ) that the character map of `String.lower` leaves
unchanged. -/
def tagsAscii (doc : Documentation) : Bool :=
  (doc.tags.all fun tg => strAscii tg.name) &&
  (doc.paths.all fun pms => pms.2.all fun md => md.2.tags.all fun t =>
    strAscii t)

/-- Whether every tag referenced by some operation has a declared tag with
the same lowercased name — exactly the condition under which no lookup
`sorted_docs["paths"][tag.lower()]` can raise. -/
def all_tags_declared (doc : Documentation) : Bool :=
  doc.paths.all fun pms => pms.2.all fun md => md.2.tags.all fun t =>
    (doc.tags.map fun tg => tg.name.lower).contains t.lower

/-- The index content asserted by the claim: keys are exactly the
lowercased declared tag names, each declared tag's entry carries its
description, every declared operation is found under each of its tags,
under its method and operation id, with the record of lines 180-187, and
nothing else is in the index. -/
def SortedIndexCorrect (doc : Documentation) (sd : SortedDocs) : Prop :=
  alkeys sd.paths = doc.tags.map (fun tg => tg.name.lower) ∧
  (∀ tg ∈ doc.tags, ∃ e, alget sd.paths tg.name.lower = some e ∧
    e.description = tg.description) ∧
  (∀ p ms m d tg, (p, ms) ∈ doc.paths → (m, d) ∈ ms → tg ∈ d.tags →
    lookup3 sd.paths (tg.lower, m, d.operationId) = some (record_of p d)) ∧
  (∀ key r, lookup3 sd.paths key = some r →
    ∃ p ms m d tg, (p, ms) ∈ doc.paths ∧ (m, d) ∈ ms ∧ tg ∈ d.tags ∧
      key = (tg.lower, m, d.operationId) ∧ r = record_of p d)

/-!
### Concrete instances used by witnesses and counterexamples
-/
/-- A configuration document with exactly the required schema content. -/
def validDoc : AList PyValue :=
  [("appName", .str "CacheLauncher"), ("version", .str "1.0.0"),
   ("settings", .dict
     [("ui", .dict [("gui", .bool true), ("theme", .str "dark")]),
      ("logLevel", .str "INFO")]),
   ("paths", .dict
     [("cacheDirectory", .str "/tmp/cache"), ("logFile", .str "/tmp/log")])]

/-- A schema-valid document carrying one extra top-level value that
`json.dump` cannot serialize (a Python set, say). -/
def unserializableDoc : AList PyValue :=
  validDoc ++ [("junk", .other "set")]

/-- A document failing validation at the first required key. -/
def invalidDoc : AList PyValue := [("appName", .int 3)]

/-- A schema-valid document with extra keys at every level, some of them
placed before the required keys. -/
def extraDoc : AList PyValue :=
  [("extraTop", .int 1),
   ("appName", .str "CacheLauncher"), ("version", .str "2.0"),
   ("settings", .dict
     [("extraSettings", .list [.int 2, .none]),
      ("ui", .dict [("gui", .bool false), ("theme", .str "light"),
                    ("extraUi", .str "x")]),
      ("logLevel", .str "DEBUG")]),
   ("paths", .dict
     [("cacheDirectory", .str "cache"), ("logFile", .str "log"),
      ("extraPaths", .bool true)]),
   ("trailing", .dict [])]

/-- The fixture of the specification: an OpenAPI snapshot with two declared
tags and three operations. -/
def fixtureDoc : Documentation :=
  { openapi := some "3.0.0"
    info := some (.dict [("title", .str "NinjaRMM API")])
    security := Option.none
    tags := [⟨"System", "System level endpoints"⟩,
             ⟨"Devices", "Device management"⟩]
    paths :=
      [("/v2/organizations",
        [("get",
          { tags := ["System"], operationId := "getOrganizations",
            summary := some "List organizations", description := Option.none,
            parameters := Option.none, requestBody := Option.none,
            responses := Option.none })]),
       ("/v2/devices",
        [("get",
          { tags := ["Devices"], operationId := "getDevices",
            summary := Option.none, description := Option.none,
            parameters := Option.none, requestBody := Option.none,
            responses := Option.none }),
         ("post",
          { tags := ["Devices"], operationId := "rebootDevice",
            summary := Option.none, description := Option.none,
            parameters := Option.none, requestBody := Option.none,
            responses := Option.none })])]
    components := Option.none }

/-- A snapshot on which the unamended C4 claim fails: two declared tags
whose names differ only by case, and two operations on different paths
sharing the same tag, method and operation id. -/
def exC4 : Documentation :=
  { openapi := Option.none
    info := Option.none
    security := Option.none
    tags := [⟨"A", "first description"⟩, ⟨"a", "second description"⟩]
    paths :=
      [("/x",
        [("get",
          { tags := ["a"], operationId := "op",
            summary := Option.none, description := Option.none,
            parameters := Option.none, requestBody := Option.none,
            responses := Option.none })]),
       ("/y",
        [("get",
          { tags := ["a"], operationId := "op",
            summary := Option.none, description := Option.none,
            parameters := Option.none, requestBody := Option.none,
            responses := Option.none })])]
    components := Option.none }

/-- The index `get_sorted_docs` actually produces on `exC4`: a single tag
entry (not two), holding the second declared description, and only the
second operation record. -/
def exC4sorted : SortedDocs :=
  ⟨"", .dict [], .list [], exC4.tags,
   [("a", ⟨"second description",
      [("get", [("op", ⟨"/y", "", "", .list [], .dict [], .dict []⟩)])]⟩)],
   .dict []⟩

/-- A snapshot whose single operation references a tag that is not
declared. -/
def exC5 : Documentation :=
  { openapi := Option.none
    info := Option.none
    security := Option.none
    tags := [⟨"System", "System level endpoints"⟩]
    paths :=
      [("/v2/devices",
        [("get",
          { tags := ["Devices"], operationId := "getDevices",
            summary := Option.none, description := Option.none,
            parameters := Option.none, requestBody := Option.none,
            responses := Option.none })])]
    components := Option.none }

/-- An environment with all five variables set to truthy values and a
valid environment name. -/
def goodEnv : String → Option String
  | "NINJA_ENVIRONMENT" => some "app"
  | "NINJA_CLIENT_ID" => some "client-id"
  | "NINJA_CLIENT_SECRET" => some "client-secret"
  | "NINJA_BASE_URL" => some "https://app.ninjarmm.com"
  | "NINJA_DOCS_PATH" => some "/v2/api-docs"
  | _ => Option.none

/-- Like `goodEnv` but with an environment name outside the valid set. -/
def badEnvName : String → Option String
  | "NINJA_ENVIRONMENT" => some "mars"
  | "NINJA_CLIENT_ID" => some "client-id"
  | "NINJA_CLIENT_SECRET" => some "client-secret"
  | "NINJA_BASE_URL" => some "https://app.ninjarmm.com"
  | "NINJA_DOCS_PATH" => some "/v2/api-docs"
  | _ => Option.none

/-- Like `goodEnv` but with the environment name set to the empty
string. -/
def emptyEnvName : String → Option String
  | "NINJA_ENVIRONMENT" => some ""
  | "NINJA_CLIENT_ID" => some "client-id"
  | "NINJA_CLIENT_SECRET" => some "client-secret"
  | "NINJA_BASE_URL" => some "https://app.ninjarmm.com"
  | "NINJA_DOCS_PATH" => some "/v2/api-docs"
  | _ => Option.none

/-- A concrete credential: obtained at second 1000, valid 3600 seconds. -/
def sampleOauth : OAUTHResponse :=
  ⟨"sample-token", "Bearer", 3600, "monitoring management control", 1000⟩

/-- A concrete refreshed credential. -/
def freshOauth : OAUTHResponse :=
  ⟨"fresh-token", "Bearer", 3600, "monitoring management control", 5000⟩

theorem hasTyped_str_iff (d : AList PyValue) (k : String) :
    hasTyped d k isinstance_str = true ↔ ∃ s, alget d k = some (.str s) := by
  unfold hasTyped
  cases h : alget d k with
  | none => simp
  | some v => cases v <;> simp [isinstance_str]

theorem hasTyped_bool_iff (d : AList PyValue) (k : String) :
    hasTyped d k isinstance_bool = true ↔ ∃ b, alget d k = some (.bool b) := by
  unfold hasTyped
  cases h : alget d k with
  | none => simp
  | some v => cases v <;> simp [isinstance_bool]

theorem hasTyped_dict_iff (d : AList PyValue) (k : String) :
    hasTyped d k isinstance_dict = true ↔ ∃ fs, alget d k = some (.dict fs) := by
  unfold hasTyped
  cases h : alget d k with
  | none => simp
  | some v => cases v <;> simp [isinstance_dict]

/-- The implemented validity check holds exactly on the documents described
by the specification schema: required fields with required types, all other
content unconstrained. -/
theorem config_isvalid_iff (doc : AList PyValue) :
    config_isvalid doc = true ↔ schemaSpec doc := by
  unfold config_isvalid schemaSpec
  simp only [List.all_cons, List.all_nil, Bool.and_true, Bool.and_eq_true,
    hasTyped_str_iff, hasTyped_bool_iff, hasTyped_dict_iff]
  constructor
  · rintro ⟨⟨⟨a, ha⟩, ⟨v, hv⟩, ⟨sf, hsf⟩, ⟨pf, hpf⟩⟩,
      ⟨⟨uf, huf⟩, ⟨ll, hll⟩⟩, ⟨⟨g, hg⟩, ⟨t, ht⟩⟩, ⟨cd, hcd⟩, ⟨lf, hlf⟩⟩
    simp only [dictGet, hsf, hpf, Option.getD_some, PyValue.fields]
      at huf hll hg ht hcd hlf
    simp only [huf, Option.getD_some, PyValue.fields] at hg ht
    exact ⟨⟨a, ha⟩, ⟨v, hv⟩, ⟨sf, hsf, ⟨uf, huf, ⟨g, hg⟩, ⟨t, ht⟩⟩, ⟨ll, hll⟩⟩,
      ⟨pf, hpf, ⟨cd, hcd⟩, ⟨lf, hlf⟩⟩⟩
  · rintro ⟨⟨a, ha⟩, ⟨v, hv⟩, ⟨sf, hsf, ⟨uf, huf, ⟨g, hg⟩, ⟨t, ht⟩⟩, ⟨ll, hll⟩⟩,
      ⟨pf, hpf, ⟨cd, hcd⟩, ⟨lf, hlf⟩⟩⟩
    refine ⟨⟨⟨a, ha⟩, ⟨v, hv⟩, ⟨sf, hsf⟩, ⟨pf, hpf⟩⟩, ?_, ?_, ?_⟩
    · simp only [dictGet, hsf, Option.getD_some, PyValue.fields]
      exact ⟨⟨uf, huf⟩, ⟨ll, hll⟩⟩
    · simp only [dictGet, hsf, Option.getD_some, PyValue.fields, huf]
      exact ⟨⟨g, hg⟩, ⟨t, ht⟩⟩
    · simp only [dictGet, hpf, Option.getD_some, PyValue.fields]
      exact ⟨⟨cd, hcd⟩, ⟨lf, hlf⟩⟩

/-!
### Dict lemmas
-/
theorem alget_alset_self {V : Type} (l : AList V) (k : String) (v : V) :
    alget (alset l k v) k = some v := by
  induction l with
  | nil => simp [alset, alget]
  | cons kv rest ih =>
      obtain ⟨k0, v0⟩ := kv
      by_cases h : k0 = k
      · subst h
        simp [alset, alget]
      · simp [alset, alget, h, ih]

theorem alget_alset_ne {V : Type} (l : AList V) (k k2 : String) (v : V)
    (h : k ≠ k2) : alget (alset l k v) k2 = alget l k2 := by
  induction l with
  | nil => simp [alset, alget, h]
  | cons kv rest ih =>
      obtain ⟨k0, v0⟩ := kv
      by_cases h0 : k0 = k
      · subst h0
        simp [alset, alget, h]
      · by_cases h2 : k0 = k2
        · subst h2
          simp [alset, alget, h0]
        · simp [alset, alget, h0, h2, ih]

theorem alget_mem {V : Type} {l : AList V} {k : String} {v : V}
    (h : alget l k = some v) : (k, v) ∈ l := by
  induction l with
  | nil => simp [alget] at h
  | cons kv rest ih =>
      obtain ⟨k0, v0⟩ := kv
      by_cases h0 : k0 = k
      · subst h0
        simp [alget] at h
        simp [h]
      · simp [alget, h0] at h
        exact List.mem_cons_of_mem _ (ih h)

theorem mem_alkeys_of_alget {V : Type} {l : AList V} {k : String} {v : V}
    (h : alget l k = some v) : k ∈ alkeys l := by
  have := alget_mem h
  exact List.mem_map.mpr ⟨(k, v), this, rfl⟩

theorem alkeys_nil {V : Type} : alkeys ([] : AList V) = [] := rfl

theorem alkeys_cons {V : Type} (kv : String × V) (l : AList V) :
    alkeys (kv :: l) = kv.1 :: alkeys l := rfl

theorem alget_eq_none_of_not_mem {V : Type} {l : AList V} {k : String}
    (h : k ∉ alkeys l) : alget l k = none := by
  induction l with
  | nil => rfl
  | cons kv rest ih =>
      obtain ⟨k0, v0⟩ := kv
      rw [alkeys_cons, List.mem_cons, not_or] at h
      have h1 : ¬ k0 = k := fun he => h.1 he.symm
      simp only [alget, if_neg h1]
      exact ih h.2

theorem alget_isSome_of_mem {V : Type} {l : AList V} {k : String}
    (h : k ∈ alkeys l) : ∃ v, alget l k = some v := by
  induction l with
  | nil => simp [alkeys_nil] at h
  | cons kv rest ih =>
      obtain ⟨k0, v0⟩ := kv
      by_cases h0 : k0 = k
      · exact ⟨v0, by simp [alget, h0]⟩
      · rw [alkeys_cons, List.mem_cons] at h
        rcases h with h | h
        · exact absurd h.symm h0
        · obtain ⟨v, hv⟩ := ih h
          exact ⟨v, by simp [alget, h0, hv]⟩

theorem alkeys_alset_of_mem {V : Type} {l : AList V} {k : String} (v : V)
    (h : k ∈ alkeys l) : alkeys (alset l k v) = alkeys l := by
  induction l with
  | nil => simp [alkeys_nil] at h
  | cons kv rest ih =>
      obtain ⟨k0, v0⟩ := kv
      by_cases h0 : k0 = k
      · simp [alset, h0, alkeys_cons]
      · rw [alkeys_cons, List.mem_cons] at h
        rcases h with h | h
        · exact absurd h.symm h0
        · simp only [alset, if_neg h0, alkeys_cons]
          rw [ih h]

theorem alkeys_alset_of_not_mem {V : Type} {l : AList V} {k : String} (v : V)
    (h : k ∉ alkeys l) : alkeys (alset l k v) = alkeys l ++ [k] := by
  induction l with
  | nil => rfl
  | cons kv rest ih =>
      obtain ⟨k0, v0⟩ := kv
      rw [alkeys_cons, List.mem_cons, not_or] at h
      have h1 : ¬ k0 = k := fun he => h.1 he.symm
      simp only [alset, if_neg h1, alkeys_cons, List.cons_append]
      rw [ih h.2]

theorem mem_alkeys_alset {V : Type} (l : AList V) (k k2 : String) (v : V) :
    k2 ∈ alkeys (alset l k v) ↔ k2 ∈ alkeys l ∨ k2 = k := by
  by_cases h : k ∈ alkeys l
  · rw [alkeys_alset_of_mem v h]
    constructor
    · exact Or.inl
    · rintro (h2 | rfl)
      · exact h2
      · exact h
  · rw [alkeys_alset_of_not_mem v h]
    simp

theorem mem_alset {V : Type} {l : AList V} {k0 : String} {v0 : V}
    {k : String} {v : V} (h : (k, v) ∈ alset l k0 v0) :
    (k, v) ∈ l ∨ (k, v) = (k0, v0) := by
  induction l with
  | nil =>
      right
      simpa [alset] using h
  | cons kv rest ih =>
      obtain ⟨k1, v1⟩ := kv
      by_cases h1 : k1 = k0
      · simp only [alset, if_pos h1, List.mem_cons] at h
        rcases h with h | h
        · right
          rw [h]
          exact Prod.ext h1 rfl
        · exact Or.inl (List.mem_cons_of_mem _ h)
      · simp only [alset, if_neg h1, List.mem_cons] at h
        rcases h with h | h
        · exact Or.inl (by simp [h])
        · rcases ih h with h2 | h2
          · exact Or.inl (List.mem_cons_of_mem _ h2)
          · exact Or.inr h2

theorem apply_writes_append (acc : AList TagEntry)
    (ws1 ws2 : List (WriteKey × OpRecord)) :
    apply_writes acc (ws1 ++ ws2) =
      match apply_writes acc ws1 with
      | .error e => .error e
      | .ok acc2 => apply_writes acc2 ws2 := by
  induction ws1 generalizing acc with
  | nil => rfl
  | cons w ws ih =>
      obtain ⟨k, r⟩ := w
      simp only [List.cons_append, apply_writes]
      cases insert_into_tag acc k.1 k.2.1 k.2.2 r with
      | error e => rfl
      | ok acc2 => exact ih acc2

theorem insert_tags_eq (path : String) (method : String) (d : Operation)
    (acc : AList TagEntry) (ts : List String) :
    insert_tags path method d acc ts =
      apply_writes acc
        (ts.map fun t => ((t.lower, method, d.operationId), record_of path d)) := by
  induction ts generalizing acc with
  | nil => rfl
  | cons t ts ih =>
      simp only [insert_tags, List.map_cons, apply_writes]
      cases insert_into_tag acc t.lower method d.operationId (record_of path d) with
      | error e => rfl
      | ok acc2 => exact ih acc2

theorem insert_methods_eq (path : String) (acc : AList TagEntry)
    (ms : AList Operation) :
    insert_methods path acc ms = apply_writes acc (methodWrites path ms) := by
  induction ms generalizing acc with
  | nil => rfl
  | cons md ms ih =>
      obtain ⟨m, d⟩ := md
      simp only [insert_methods, methodWrites, List.flatMap_cons,
        apply_writes_append, insert_tags_eq]
      rw [show (opWrites path m d) =
        (d.tags.map fun t => ((t.lower, m, d.operationId), record_of path d))
        from rfl]
      cases apply_writes acc
          (d.tags.map fun t => ((t.lower, m, d.operationId), record_of path d)) with
      | error e => rfl
      | ok acc2 => exact ih acc2

theorem insert_paths_eq (acc : AList TagEntry)
    (paths : AList (AList Operation)) :
    insert_paths acc paths = apply_writes acc (docWrites paths) := by
  induction paths generalizing acc with
  | nil => rfl
  | cons pms rest ih =>
      obtain ⟨p, ms⟩ := pms
      simp only [insert_paths, docWrites, List.flatMap_cons,
        apply_writes_append, insert_methods_eq]
      cases apply_writes acc (methodWrites p ms) with
      | error e => rfl
      | ok acc2 => exact ih acc2

theorem insert_into_tag_error {acc : AList TagEntry} {tag : String}
    (method opId : String) (rec : OpRecord) (h : alget acc tag = none) :
    insert_into_tag acc tag method opId rec = .error tag := by
  simp [insert_into_tag, h]

theorem insert_into_tag_ok {acc : AList TagEntry} {tag : String}
    {entry : TagEntry} (method opId : String) (rec : OpRecord)
    (h : alget acc tag = some entry) :
    insert_into_tag acc tag method opId rec =
      .ok (alset acc tag ⟨entry.description,
        alset entry.methods method
          (alset ((alget entry.methods method).getD []) opId rec)⟩) := by
  simp [insert_into_tag, h]

theorem lookup3_step (acc : AList TagEntry) (tag : String) (method : String)
    (opId : String) (entry : TagEntry) (rec : OpRecord)
    (h : alget acc tag = some entry) (key : WriteKey) :
    lookup3 (alset acc tag ⟨entry.description,
        alset entry.methods method
          (alset ((alget entry.methods method).getD []) opId rec)⟩) key =
      if key = (tag, method, opId) then some rec else lookup3 acc key := by
  obtain ⟨t2, m2, oid2⟩ := key
  simp only [Prod.mk.injEq]
  by_cases ht : t2 = tag
  · subst ht
    simp only [lookup3, alget_alset_self, eq_self_iff_true, true_and]
    by_cases hm : m2 = method
    · subst hm
      simp only [alget_alset_self, eq_self_iff_true, true_and]
      by_cases ho : oid2 = opId
      · subst ho
        simp [alget_alset_self]
      · rw [alget_alset_ne _ _ _ _ (fun he => ho he.symm), if_neg ho, h]
        cases hmm : alget entry.methods m2 with
        | none => simp [hmm, alget]
        | some mm => simp [hmm]
    · rw [alget_alset_ne _ _ _ _ (fun he => hm he.symm),
        if_neg (by simp [hm]), h]
  · simp only [lookup3]
    rw [alget_alset_ne _ _ _ _ (fun he => ht he.symm),
      if_neg (by simp [ht])]

theorem apply_writes_ok_of_keys (acc : AList TagEntry)
    (ws : List (WriteKey × OpRecord)) (h : ∀ w ∈ ws, w.1.1 ∈ alkeys acc) :
    ∃ final, apply_writes acc ws = .ok final ∧ alkeys final = alkeys acc := by
  induction ws generalizing acc with
  | nil => exact ⟨acc, rfl, rfl⟩
  | cons w ws ih =>
      obtain ⟨k, r⟩ := w
      have hk : k.1 ∈ alkeys acc := h (k, r) (List.mem_cons_self _ _)
      obtain ⟨entry, he⟩ := alget_isSome_of_mem hk
      rw [apply_writes, insert_into_tag_ok _ _ _ he]
      have hkeys := alkeys_alset_of_mem (l := acc) (k := k.1)
        (⟨entry.description, alset entry.methods k.2.1
          (alset ((alget entry.methods k.2.1).getD []) k.2.2 r)⟩) hk
      obtain ⟨final, hf, hfk⟩ := ih _ (fun w hw => by
        rw [hkeys]
        exact h w (List.mem_cons_of_mem _ hw))
      exact ⟨final, hf, by rw [hfk, hkeys]⟩

theorem apply_writes_desc {acc : AList TagEntry}
    {ws : List (WriteKey × OpRecord)} {final : AList TagEntry}
    (h : apply_writes acc ws = .ok final) (t : String) :
    (alget final t).map (fun e => e.description) =
      (alget acc t).map (fun e => e.description) := by
  induction ws generalizing acc with
  | nil =>
      cases h
      rfl
  | cons w ws ih =>
      obtain ⟨k, r⟩ := w
      rw [apply_writes] at h
      cases he : insert_into_tag acc k.1 k.2.1 k.2.2 r with
      | error e => rw [he] at h; cases h
      | ok acc2 =>
          rw [he] at h
          rw [ih h]
          cases hk : alget acc k.1 with
          | none => rw [insert_into_tag_error _ _ _ hk] at he; cases he
          | some entry =>
              rw [insert_into_tag_ok _ _ _ hk] at he
              cases he
              by_cases ht : k.1 = t
              · subst ht
                rw [alget_alset_self, hk]
                rfl
              · rw [alget_alset_ne _ _ _ _ ht]

theorem apply_writes_lookup3 {acc : AList TagEntry}
    {ws : List (WriteKey × OpRecord)} {final : AList TagEntry}
    (h : apply_writes acc ws = .ok final) (key : WriteKey) :
    lookup3 final key = opOr (lastWrite ws key) (lookup3 acc key) := by
  induction ws generalizing acc with
  | nil =>
      cases h
      rfl
  | cons w ws ih =>
      obtain ⟨k, r⟩ := w
      rw [apply_writes] at h
      cases hk : alget acc k.1 with
      | none => rw [insert_into_tag_error _ _ _ hk] at h; cases h
      | some entry =>
          rw [insert_into_tag_ok _ _ _ hk] at h
          rw [ih h, lastWrite, lookup3_step acc k.1 k.2.1 k.2.2 entry r hk key]
          cases hlw : lastWrite ws key with
          | some r2 => rfl
          | none =>
              by_cases hkey : key = k
              · rw [if_pos hkey, if_pos hkey.symm]
                rfl
              · rw [if_neg hkey, if_neg (fun he => hkey he.symm)]

theorem apply_writes_error_of_missing (acc : AList TagEntry)
    (ws : List (WriteKey × OpRecord))
    (h : ∃ w ∈ ws, w.1.1 ∉ alkeys acc) :
    ∃ t, apply_writes acc ws = .error t := by
  induction ws generalizing acc with
  | nil => simp at h
  | cons w ws ih =>
      obtain ⟨k, r⟩ := w
      by_cases hk : k.1 ∈ alkeys acc
      · obtain ⟨entry, he⟩ := alget_isSome_of_mem hk
        rw [apply_writes, insert_into_tag_ok _ _ _ he]
        have hkeys := alkeys_alset_of_mem (l := acc) (k := k.1)
          (⟨entry.description, alset entry.methods k.2.1
            (alset ((alget entry.methods k.2.1).getD []) k.2.2 r)⟩) hk
        obtain ⟨w2, hw2, hnot⟩ := h
        rcases List.mem_cons.mp hw2 with rfl | hw2
        · exact absurd hk hnot
        · exact ih _ ⟨w2, hw2, by rw [hkeys]; exact hnot⟩
      · refine ⟨k.1, ?_⟩
        rw [apply_writes, insert_into_tag_error _ _ _
          (alget_eq_none_of_not_mem hk)]

theorem lastWrite_mem {ws : List (WriteKey × OpRecord)} {key : WriteKey}
    {r : OpRecord} (h : lastWrite ws key = some r) : (key, r) ∈ ws := by
  induction ws with
  | nil => cases h
  | cons w ws ih =>
      obtain ⟨k0, r0⟩ := w
      rw [lastWrite] at h
      cases hlw : lastWrite ws key with
      | some r2 =>
          rw [hlw] at h
          cases h
          exact List.mem_cons_of_mem _ (ih hlw)
      | none =>
          rw [hlw] at h
          by_cases hk : k0 = key
          · rw [if_pos hk] at h
            cases h
            subst hk
            exact List.mem_cons_self _ _
          · rw [if_neg hk] at h
            cases h

theorem lastWrite_eq_none_of_not_mem {ws : List (WriteKey × OpRecord)}
    {key : WriteKey} (h : key ∉ ws.map (fun w => w.1)) :
    lastWrite ws key = none := by
  induction ws with
  | nil => rfl
  | cons w ws ih =>
      obtain ⟨k0, r0⟩ := w
      simp only [List.map_cons, List.mem_cons, not_or] at h
      rw [lastWrite, ih h.2, if_neg (fun he => h.1 he.symm)]

theorem lastWrite_of_nodup {ws : List (WriteKey × OpRecord)} {key : WriteKey}
    {r : OpRecord} (hnd : (ws.map fun w => w.1).Nodup) (h : (key, r) ∈ ws) :
    lastWrite ws key = some r := by
  induction ws with
  | nil => cases h
  | cons w ws ih =>
      obtain ⟨k0, r0⟩ := w
      rw [List.map_cons, List.nodup_cons] at hnd
      rcases List.mem_cons.mp h with he | hm
      · obtain ⟨rfl, rfl⟩ := Prod.mk.injEq .. ▸ he
        have : key ∉ ws.map (fun w => w.1) := by
          injection he with h1 h2
          exact h1 ▸ hnd.1
        rw [lastWrite, lastWrite_eq_none_of_not_mem this, if_pos rfl]
      · rw [lastWrite, ih hnd.2 hm]

/-!
### The initial tag skeleton
-/
theorem foldl_init_alget_untouched (tags : List DocTag) (acc : AList TagEntry)
    (k : String) (h : ∀ tg ∈ tags, tg.name.lower ≠ k) :
    alget (tags.foldl
      (fun acc tag => alset acc tag.name.lower ⟨tag.description, []⟩) acc) k =
      alget acc k := by
  induction tags generalizing acc with
  | nil => rfl
  | cons hd tl ih =>
      rw [List.foldl_cons, ih _ (fun tg htg => h tg (List.mem_cons_of_mem _ htg)),
        alget_alset_ne _ _ _ _ (h hd (List.mem_cons_self _ _))]

theorem mem_alkeys_foldl_init (tags : List DocTag) (acc : AList TagEntry)
    (t : String) :
    t ∈ alkeys (tags.foldl
      (fun acc tag => alset acc tag.name.lower ⟨tag.description, []⟩) acc) ↔
      t ∈ alkeys acc ∨ ∃ tg ∈ tags, tg.name.lower = t := by
  induction tags generalizing acc with
  | nil => simp
  | cons hd tl ih =>
      rw [List.foldl_cons, ih]
      rw [mem_alkeys_alset]
      constructor
      · rintro ((h | h) | h)
        · exact Or.inl h
        · exact Or.inr ⟨hd, List.mem_cons_self _ _, h.symm⟩
        · obtain ⟨tg, htg, he⟩ := h
          exact Or.inr ⟨tg, List.mem_cons_of_mem _ htg, he⟩
      · rintro (h | ⟨tg, htg, he⟩)
        · exact Or.inl (Or.inl h)
        · rcases List.mem_cons.mp htg with rfl | htg
          · exact Or.inl (Or.inr he.symm)
          · exact Or.inr ⟨tg, htg, he⟩

theorem mem_alkeys_init_paths (tags : List DocTag) (t : String) :
    t ∈ alkeys (init_paths tags) ↔ ∃ tg ∈ tags, tg.name.lower = t := by
  rw [init_paths, mem_alkeys_foldl_init]
  simp [alkeys_nil]

theorem alkeys_foldl_init (tags : List DocTag) (acc : AList TagEntry)
    (hfresh : ∀ tg ∈ tags, tg.name.lower ∉ alkeys acc)
    (hnd : (tags.map fun tg => tg.name.lower).Nodup) :
    alkeys (tags.foldl
      (fun acc tag => alset acc tag.name.lower ⟨tag.description, []⟩) acc) =
      alkeys acc ++ tags.map (fun tg => tg.name.lower) := by
  induction tags generalizing acc with
  | nil => simp
  | cons hd tl ih =>
      rw [List.map_cons, List.nodup_cons] at hnd
      rw [List.foldl_cons, List.map_cons]
      have hk := alkeys_alset_of_not_mem (l := acc)
        (⟨hd.description, []⟩ : TagEntry) (hfresh hd (List.mem_cons_self _ _))
      rw [ih _ (fun tg htg => by
          rw [hk, List.mem_append, List.mem_singleton]
          push_neg
          refine ⟨hfresh tg (List.mem_cons_of_mem _ htg), fun he => ?_⟩
          exact hnd.1 (he ▸ List.mem_map_of_mem (fun tg => tg.name.lower) htg))
        hnd.2, hk]
      simp

theorem alget_foldl_init (tags : List DocTag) (acc : AList TagEntry)
    (tg : DocTag) (hmem : tg ∈ tags)
    (hfresh : ∀ tg2 ∈ tags, tg2.name.lower ∉ alkeys acc)
    (hnd : (tags.map fun tg => tg.name.lower).Nodup) :
    alget (tags.foldl
      (fun acc tag => alset acc tag.name.lower ⟨tag.description, []⟩) acc)
      tg.name.lower = some ⟨tg.description, []⟩ := by
  induction tags generalizing acc with
  | nil => cases hmem
  | cons hd tl ih =>
      rw [List.map_cons, List.nodup_cons] at hnd
      rw [List.foldl_cons]
      rcases List.mem_cons.mp hmem with rfl | hmem
      · rw [foldl_init_alget_untouched _ _ _ (fun tg2 htg2 he => hnd.1
          (by rw [← he]; exact List.mem_map_of_mem (fun tg => tg.name.lower) htg2))]
        exact alget_alset_self _ _ _
      · refine ih _ hmem (fun tg2 htg2 => ?_) hnd.2
        rw [mem_alkeys_alset]
        push_neg
        refine ⟨hfresh tg2 (List.mem_cons_of_mem _ htg2), fun he => ?_⟩
        exact hnd.1 (he ▸ List.mem_map_of_mem (fun tg => tg.name.lower) htg2)

theorem init_paths_methods_nil (tags : List DocTag) :
    ∀ t e, alget (init_paths tags) t = some e → e.methods = [] := by
  have main : ∀ (tags : List DocTag) (acc : AList TagEntry),
      (∀ kv ∈ acc, (kv : String × TagEntry).2.methods = []) →
      ∀ kv ∈ tags.foldl
        (fun acc tag => alset acc tag.name.lower ⟨tag.description, []⟩) acc,
        (kv : String × TagEntry).2.methods = [] := by
    intro tags
    induction tags with
    | nil => intro acc hacc kv hkv; exact hacc kv hkv
    | cons hd tl ih =>
        intro acc hacc kv hkv
        refine ih _ (fun kv2 hkv2 => ?_) kv hkv
        obtain ⟨k2, e2⟩ := kv2
        rcases mem_alset hkv2 with hm | he
        · exact hacc _ hm
        · rw [show e2 = (⟨hd.description, []⟩ : TagEntry) from congrArg Prod.snd he]
  intro t e h
  exact main tags [] (by simp) (t, e) (alget_mem h)

theorem lookup3_init_paths (tags : List DocTag) (key : WriteKey) :
    lookup3 (init_paths tags) key = none := by
  cases h : alget (init_paths tags) key.1 with
  | none => simp [lookup3, h]
  | some e =>
      simp [lookup3, h, init_paths_methods_nil tags key.1 e h, alget]

theorem mem_docWrites {paths : AList (AList Operation)}
    {w : WriteKey × OpRecord} :
    w ∈ docWrites paths ↔
      ∃ p ms m d tg, (p, ms) ∈ paths ∧ (m, d) ∈ ms ∧ tg ∈ d.tags ∧
        w = ((tg.lower, m, d.operationId), record_of p d) := by
  simp only [docWrites, methodWrites, opWrites, List.mem_flatMap,
    List.mem_map]
  constructor
  · rintro ⟨pms, hpms, md, hmd, tg, htg, rfl⟩
    exact ⟨pms.1, pms.2, md.1, md.2, tg, hpms, hmd, htg, rfl⟩
  · rintro ⟨p, ms, m, d, tg, hp, hm, htg, rfl⟩
    exact ⟨(p, ms), hp, (m, d), hm, tg, htg, rfl⟩

theorem all_tags_declared_iff (doc : Documentation) :
    all_tags_declared doc = true ↔
      ∀ w ∈ docWrites doc.paths,
        w.1.1 ∈ doc.tags.map (fun tg => tg.name.lower) := by
  rw [all_tags_declared]
  simp only [List.all_eq_true]
  constructor
  · intro h w hw
    obtain ⟨p, ms, m, d, tg, hp, hm, htg, rfl⟩ := mem_docWrites.mp hw
    have := h (p, ms) hp (m, d) hm tg htg
    simpa using this
  · intro h pms hpms md hmd t htg
    have hw : ((t.lower, md.1, md.2.operationId), record_of pms.1 md.2) ∈
        docWrites doc.paths :=
      mem_docWrites.mpr ⟨pms.1, pms.2, md.1, md.2, t, hpms, hmd, htg, rfl⟩
    simpa using h _ hw

theorem get_sorted_docs_ok_paths {doc : Documentation}
    {final : AList TagEntry}
    (h : insert_paths (init_paths doc.tags) doc.paths = .ok final) :
    get_sorted_docs doc = .ok
      ⟨doc.openapi.getD "", doc.info.getD (.dict []),
       doc.security.getD (.list []), doc.tags, final,
       doc.components.getD (.dict [])⟩ := by
  rw [get_sorted_docs, h]

/-- C5: for every documentation snapshot with ASCII tag names in which some
operation references a tag whose lowercased name does not appear among the
declared tags' lowercased names, `get_sorted_docs` does not silently
produce an entry for it but fails with a `KeyError` (carrying the missing
lowercased tag).  The `tagsAscii` hypothesis confines the statement to the
domain on which the model's lowercasing provably coincides with Python
`str.lower()`; the Lean proof does not otherwise use it. -/
theorem get_sorted_docs_undeclared_tag_error (doc : Documentation)
    (_hA : tagsAscii doc = true)
    (h : all_tags_declared doc = false) :
    ∃ t, get_sorted_docs doc = .error t := by
  have h2 : ∃ w ∈ docWrites doc.paths,
      w.1.1 ∉ alkeys (init_paths doc.tags) := by
    by_contra hc
    push_neg at hc
    have hall : all_tags_declared doc = true := by
      rw [all_tags_declared_iff]
      intro w hw
      have hm := hc w hw
      rw [mem_alkeys_init_paths] at hm
      obtain ⟨tg, htg, he⟩ := hm
      rw [← he]
      exact List.mem_map_of_mem _ htg
    rw [hall] at h
    cases h
  obtain ⟨t, ht⟩ := apply_writes_error_of_missing _ _ h2
  refine ⟨t, ?_⟩
  rw [get_sorted_docs, insert_paths_eq, ht]

/-- C4 (amended): for every documentation snapshot with ASCII tag names in
which every operation-referenced tag's lowercased name is declared, the
declared tags have pairwise distinct lowercased names, and no two
operation occurrences share the same (lowercased tag, method, operation
id) triple, `get_sorted_docs` succeeds and produces exactly the index
described by `SortedIndexCorrect`: one entry per declared tag keyed by its
lowercased name and holding its description, with each operation under
exactly the tags it declares, keyed by method and declared operation
identifier.  The `tagsAscii` hypothesis confines the statement to the
domain on which the model's lowercasing provably coincides with Python
`str.lower()`; the Lean proof does not otherwise use it. -/
theorem get_sorted_docs_sorted (doc : Documentation)
    (_hA : tagsAscii doc = true)
    (h1 : all_tags_declared doc = true)
    (h2 : (doc.tags.map fun tg => tg.name.lower).Nodup)
    (h3 : ((docWrites doc.paths).map fun w => w.1).Nodup) :
    ∃ sd, get_sorted_docs doc = .ok sd ∧ SortedIndexCorrect doc sd := by
  have hkeys0 : alkeys (init_paths doc.tags) =
      doc.tags.map (fun tg => tg.name.lower) := by
    have := alkeys_foldl_init doc.tags [] (by simp [alkeys_nil]) h2
    simpa [init_paths, alkeys_nil] using this
  have hall : ∀ w ∈ docWrites doc.paths,
      w.1.1 ∈ alkeys (init_paths doc.tags) := by
    intro w hw
    rw [hkeys0]
    exact (all_tags_declared_iff doc).mp h1 w hw
  obtain ⟨final, hfin, hfinkeys⟩ := apply_writes_ok_of_keys _ _ hall
  have hip : insert_paths (init_paths doc.tags) doc.paths = .ok final := by
    rw [insert_paths_eq]
    exact hfin
  refine ⟨_, get_sorted_docs_ok_paths hip, ?_⟩
  unfold SortedIndexCorrect
  dsimp only
  refine ⟨?_, ?_, ?_, ?_⟩
  · rw [hfinkeys, hkeys0]
  · intro tg htg
    have hd := apply_writes_desc hfin tg.name.lower
    have hinit : alget (init_paths doc.tags) tg.name.lower =
        some ⟨tg.description, []⟩ :=
      alget_foldl_init doc.tags [] tg htg (by simp [alkeys_nil]) h2
    rw [hinit] at hd
    obtain ⟨e, he, hde⟩ := Option.map_eq_some'.mp hd
    exact ⟨e, he, hde⟩
  · intro p ms m d tg hp hm htg
    have hw : ((tg.lower, m, d.operationId), record_of p d) ∈
        docWrites doc.paths :=
      mem_docWrites.mpr ⟨p, ms, m, d, tg, hp, hm, htg, rfl⟩
    have hlw := lastWrite_of_nodup h3 hw
    rw [apply_writes_lookup3 hfin, hlw]
    rfl
  · intro key r hr
    rw [apply_writes_lookup3 hfin, lookup3_init_paths] at hr
    have hlw : lastWrite (docWrites doc.paths) key = some r := by
      cases hlw2 : lastWrite (docWrites doc.paths) key with
      | none =>
          rw [hlw2] at hr
          exact Option.noConfusion hr
      | some r2 =>
          rw [hlw2] at hr
          exact hr
    obtain ⟨p, ms, m, d, tg, hp, hm, htg, he⟩ :=
      mem_docWrites.mp (lastWrite_mem hlw)
    injection he with hk hrr
    exact ⟨p, ms, m, d, tg, hp, hm, htg, hk, hrr⟩

/-!
### Claims about the config handler
-/
/-- C1 counterexample: a schema-valid document with an unserializable extra
value makes `save_config` raise the serialization `ValueError`, but the
file — which previously held a valid document — is NOT left unchanged: the
`open(path, 'w')` truncates it before `json.dump` fails midway, leaving
unparseable partial content.  This refutes the claimed "previously stored
file content is left unchanged (no partial or truncated write)". -/
theorem save_config_partial_write_counterexample :
    config_isvalid unserializableDoc = true ∧
    (save_config unserializableDoc (FileContent.json validDoc)).1 =
      .error .serializationError ∧
    (save_config unserializableDoc (FileContent.json validDoc)).2 =
      FileContent.malformed ∧
    FileContent.malformed ≠ FileContent.json validDoc := by
  refine ⟨by decide, by rfl, by rfl, fun h => FileContent.noConfusion h⟩

/-- C1 (amended): an invalid document makes `save_config` raise the
validation `ValueError` before the file is opened, leaving it unchanged; a
valid document containing an unserializable value makes it raise the
serialization `ValueError`, and the stored file is truncated and left with
partial, unparseable content (its previous content is destroyed). -/
theorem save_config_failure_states (config_data : AList PyValue)
    (file : FileContent) :
    (config_isvalid config_data = false →
      save_config config_data file = (.error .validationError, file)) ∧
    (config_isvalid config_data = true →
      serializableFields config_data = false →
      save_config config_data file =
        (.error .serializationError, FileContent.malformed)) := by
  constructor
  · intro h
    simp [save_config, h]
  · intro h1 h2
    simp [save_config, h1, h2]

/-- Witness for `save_config_failure_states` at concrete inputs. -/
theorem save_config_failure_states_witness :
    config_isvalid invalidDoc = false ∧
    save_config invalidDoc (FileContent.json validDoc) =
      (.error .validationError, FileContent.json validDoc) ∧
    config_isvalid unserializableDoc = true ∧
    serializableFields unserializableDoc = false ∧
    save_config unserializableDoc FileContent.absent =
      (.error .serializationError, FileContent.malformed) :=
  ⟨by decide,
   (save_config_failure_states invalidDoc (FileContent.json validDoc)).1
     (by decide),
   by decide, by decide,
   (save_config_failure_states unserializableDoc FileContent.absent).2
     (by decide) (by decide)⟩

/-- C2: a schema-valid, serializable document written by `save_config` is
read back verbatim by `get_config`, whatever the file held before. -/
theorem save_then_get_roundtrip (config_data : AList PyValue)
    (file : FileContent) (h1 : config_isvalid config_data = true)
    (h2 : serializableFields config_data = true) :
    (save_config config_data file).1 = .ok () ∧
    get_config (save_config config_data file).2 = .ok config_data := by
  constructor
  · simp [save_config, h1, h2]
  · simp [save_config, h1, h2, get_config]

/-- Witness for `save_then_get_roundtrip` at a concrete document. -/
theorem save_then_get_roundtrip_witness :
    config_isvalid validDoc = true ∧
    serializableFields validDoc = true ∧
    ((save_config validDoc FileContent.absent).1 = .ok () ∧
     get_config (save_config validDoc FileContent.absent).2 = .ok validDoc) :=
  ⟨by decide, by decide,
   save_then_get_roundtrip validDoc FileContent.absent (by decide) (by decide)⟩

/-- C3 counterexample: the file content `5` is valid JSON, so the file
exists and parses, and the parsed document has every required field
missing — the claim then demands the validation `ValueError` — yet
`get_config` fails with the uncaught `TypeError` instead: the first check
`"appName" not in config_data` raises `argument of type int is not
iterable`, and the surrounding `except` only catches
`json.JSONDecodeError`. -/
theorem get_config_counterexample :
    get_config (FileContent.jsonNonObject (.int 5)) = .error .typeError ∧
    ConfigError.typeError ≠ ConfigError.validationError :=
  ⟨rfl, by decide⟩

/-- C3 (amended): `get_config` fails with the `FileNotFoundError` when the
file is absent and with the decode `ValueError` when the content is not
JSON; a parsed object violating the schema of `schemaSpec` is rejected
whole with the validation `ValueError`, and a conforming one is returned
unchanged.  But the error taxonomy is not all-or-nothing over every JSON
document: content parsing to a non-object value escapes with an uncaught
`TypeError` whenever `validator_crashes` holds of it (always for numbers,
booleans and `null`; for strings and arrays exactly when they contain
`"appName"`), and only falls through to the validation `ValueError`
otherwise.  (The last clause assumes the value is not a dict: files
parsing to an object are the subject of the previous clause, whichever
constructor represents them.) -/
theorem get_config_spec (file : FileContent) :
    (file = FileContent.absent → get_config file = .error .notFound) ∧
    (file = FileContent.malformed → get_config file = .error .parseError) ∧
    (∀ doc, file = FileContent.json doc →
      (schemaSpec doc → get_config file = .ok doc) ∧
      (¬ schemaSpec doc → get_config file = .error .validationError)) ∧
    (∀ v, file = FileContent.jsonNonObject v → isinstance_dict v = false →
      (validator_crashes v = true → get_config file = .error .typeError) ∧
      (validator_crashes v = false →
        get_config file = .error .validationError)) := by
  refine ⟨fun h => by rw [h]; rfl, fun h => by rw [h]; rfl,
    fun doc h => ⟨fun hs => ?_, fun hs => ?_⟩,
    fun v h hd => ⟨fun hc => ?_, fun hc => ?_⟩⟩
  · rw [h]
    simp [get_config, (config_isvalid_iff doc).mpr hs]
  · rw [h]
    have hf : config_isvalid doc = false := by
      cases hcv : config_isvalid doc
      · rfl
      · exact absurd ((config_isvalid_iff doc).mp hcv) hs
    simp [get_config, hf]
  · rw [h]
    cases v <;> simp_all [get_config, isinstance_dict]
  · rw [h]
    cases v <;> simp_all [get_config, isinstance_dict]

/-- Witness for `get_config_spec` on every outcome, including the uncaught
`TypeError` of a numeric document and the fall-through validation error of
a string document not containing `appName`. -/
theorem get_config_spec_witness :
    schemaSpec validDoc ∧
    get_config (FileContent.json validDoc) = .ok validDoc ∧
    get_config FileContent.absent = .error .notFound ∧
    get_config FileContent.malformed = .error .parseError ∧
    (¬ schemaSpec invalidDoc) ∧
    get_config (FileContent.json invalidDoc) = .error .validationError ∧
    validator_crashes (PyValue.int 5) = true ∧
    get_config (FileContent.jsonNonObject (.int 5)) = .error .typeError ∧
    validator_crashes (PyValue.str "hello") = false ∧
    get_config (FileContent.jsonNonObject (.str "hello")) =
      .error .validationError :=
  have hs : schemaSpec validDoc := (config_isvalid_iff validDoc).mp (by decide)
  have hns : ¬ schemaSpec invalidDoc := fun hx =>
    absurd ((config_isvalid_iff invalidDoc).mpr hx) (by decide)
  ⟨hs,
   ((get_config_spec (FileContent.json validDoc)).2.2.1 validDoc rfl).1 hs,
   (get_config_spec FileContent.absent).1 rfl,
   (get_config_spec FileContent.malformed).2.1 rfl,
   hns,
   ((get_config_spec (FileContent.json invalidDoc)).2.2.1 invalidDoc rfl).2
     hns,
   by decide,
   ((get_config_spec (FileContent.jsonNonObject (.int 5))).2.2.2 (.int 5)
     rfl (by decide)).1 (by decide),
   by decide,
   ((get_config_spec (FileContent.jsonNonObject (.str "hello"))).2.2.2
     (.str "hello") rfl (by decide)).2 (by decide)⟩

/-- C9: validation constrains only the required fields (`schemaSpec` says
nothing about other keys), so a document with arbitrary extra keys at any
level validates, and `save_config` persists it with the extra keys intact,
`get_config` returning it verbatim. -/
theorem config_accepts_extra_keys (doc : AList PyValue) (h : schemaSpec doc) :
    config_isvalid doc = true ∧
    (serializableFields doc = true → ∀ file : FileContent,
      (save_config doc file).1 = .ok () ∧
      (save_config doc file).2 = FileContent.json doc ∧
      get_config (save_config doc file).2 = .ok doc) := by
  have hv : config_isvalid doc = true := (config_isvalid_iff doc).mpr h
  refine ⟨hv, fun hs file => ⟨?_, ?_, ?_⟩⟩
  · simp [save_config, hv, hs]
  · simp [save_config, hv, hs]
  · simp [save_config, hv, hs, get_config]

/-- Witness for `config_accepts_extra_keys` on a document with extra keys
at every level, some placed before the required keys. -/
theorem config_accepts_extra_keys_witness :
    schemaSpec extraDoc ∧
    serializableFields extraDoc = true ∧
    config_isvalid extraDoc = true ∧
    (save_config extraDoc FileContent.absent).2 = FileContent.json extraDoc ∧
    get_config (save_config extraDoc FileContent.absent).2 = .ok extraDoc :=
  have hs : schemaSpec extraDoc := (config_isvalid_iff extraDoc).mp (by decide)
  have hser : serializableFields extraDoc = true := by decide
  have hmain := config_accepts_extra_keys extraDoc hs
  ⟨hs, hser, hmain.1, (hmain.2 hser FileContent.absent).2.1,
   (hmain.2 hser FileContent.absent).2.2⟩

/-!
### Claims about the API client
-/
/-- C6: with all five variables truthy but an environment name outside the
valid set, construction fails with the invalid-environment `ValueError` and
performs no network interaction at all. -/
theorem invalid_environment_no_network (env : String → Option String)
    (tokenSucceeds : Bool)
    (h1 : required_vars.all (fun v => truthy (env v)) = true)
    (h2 : opt_mem (env "NINJA_ENVIRONMENT") valid_environments = false) :
    ninja_init env tokenSucceeds = (.error .invalidEnvironmentValue, []) := by
  have hm : missing_env_vars env = [] := by
    rw [missing_env_vars, List.filter_eq_nil_iff]
    intro v hv
    rw [List.all_eq_true] at h1
    simp [h1 v hv]
  simp [ninja_init, hm, h2]

/-- Witness for `invalid_environment_no_network` with environment name
`mars`. -/
theorem invalid_environment_no_network_witness :
    required_vars.all (fun v => truthy (badEnvName v)) = true ∧
    opt_mem (badEnvName "NINJA_ENVIRONMENT") valid_environments = false ∧
    ninja_init badEnvName true = (.error .invalidEnvironmentValue, []) :=
  ⟨by decide, by decide,
   invalid_environment_no_network badEnvName true (by decide) (by decide)⟩

/-- C10: a required variable set to the empty string is falsy under the
`if not value` filter, so it is reported by the missing-variables
`ValueError` (which names it), never by the invalid-environment one; in
particular an empty `NINJA_ENVIRONMENT` yields the missing-variables
error. -/
theorem empty_env_var_is_missing (env : String → Option String)
    (tokenSucceeds : Bool) (v : String) (hv : v ∈ required_vars)
    (he : env v = some "") :
    ninja_init env tokenSucceeds =
      (.error (.missingEnvironment (missing_env_vars env)), []) ∧
    v ∈ missing_env_vars env := by
  have hmem : v ∈ missing_env_vars env := by
    rw [missing_env_vars]
    refine List.mem_filter.mpr ⟨hv, ?_⟩
    show (!truthy (env v)) = true
    rw [he]
    decide
  have hne : ¬ missing_env_vars env = [] := by
    intro h0
    rw [h0] at hmem
    cases hmem
  exact ⟨by simp [ninja_init, hne], hmem⟩

/-- Witness for `empty_env_var_is_missing`: an empty environment name. -/
theorem empty_env_var_is_missing_witness :
    "NINJA_ENVIRONMENT" ∈ required_vars ∧
    emptyEnvName "NINJA_ENVIRONMENT" = some "" ∧
    (ninja_init emptyEnvName true =
      (.error (.missingEnvironment (missing_env_vars emptyEnvName)), []) ∧
     "NINJA_ENVIRONMENT" ∈ missing_env_vars emptyEnvName) ∧
    missing_env_vars emptyEnvName = ["NINJA_ENVIRONMENT"] :=
  ⟨by decide, rfl,
   empty_env_var_is_missing emptyEnvName true "NINJA_ENVIRONMENT"
     (by decide) rfl,
   by decide⟩

/-- C7: a `request` made while the held token is expired performs exactly
one credential request before the single outgoing HTTP request, and the
held credential is replaced by the fresh response; an unexpired token
triggers no credential request and is kept. -/
theorem request_refresh_behaviour (oauth : OAUTHResponse) (now : Int)
    (fresh : OAUTHResponse) (method : String) (path : String) :
    (oauth.is_expired now = true →
      request_step oauth now fresh method path =
        (fresh, [.credentialRequest, .httpRequest method path])) ∧
    (oauth.is_expired now = false →
      request_step oauth now fresh method path =
        (oauth, [.httpRequest method path])) := by
  constructor <;> intro h <;> simp [request_step, authenticate_step, h]

/-- Witness for `request_refresh_behaviour` in both states. -/
theorem request_refresh_behaviour_witness :
    sampleOauth.is_expired 5000 = true ∧
    request_step sampleOauth 5000 freshOauth "get" "/v2/organizations" =
      (freshOauth,
       [.credentialRequest, .httpRequest "get" "/v2/organizations"]) ∧
    sampleOauth.is_expired 2000 = false ∧
    request_step sampleOauth 2000 freshOauth "get" "/v2/organizations" =
      (sampleOauth, [.httpRequest "get" "/v2/organizations"]) :=
  ⟨by decide,
   (request_refresh_behaviour sampleOauth 5000 freshOauth "get"
     "/v2/organizations").1 (by decide),
   by decide,
   (request_refresh_behaviour sampleOauth 2000 freshOauth "get"
     "/v2/organizations").2 (by decide)⟩

/-- C8: `is_expired` holds exactly when the current time strictly exceeds
`obtained_at + expires_in`; any later instant is expired, and one second
before that instant it is not. -/
theorem is_expired_spec (r : OAUTHResponse) (now : Int) :
    (r.is_expired now = true ↔ r.obtained_at + r.expires_in < now) ∧
    (r.obtained_at + r.expires_in < now → r.is_expired now = true) ∧
    r.is_expired (r.obtained_at + r.expires_in - 1) = false := by
  refine ⟨?_, fun h => ?_, ?_⟩
  · simp [OAUTHResponse.is_expired]
  · simp [OAUTHResponse.is_expired, h]
  · simp only [OAUTHResponse.is_expired, decide_eq_false_iff_not]
    omega

/-- Witness for `is_expired_spec` at a concrete credential. -/
theorem is_expired_spec_witness :
    ((1000 : Int) + 3600 < 5000) ∧
    OAUTHResponse.is_expired sampleOauth 5000 = true ∧
    OAUTHResponse.is_expired sampleOauth (1000 + 3600 - 1) = false :=
  ⟨by decide, (is_expired_spec sampleOauth 5000).2.1 (by decide),
   (is_expired_spec sampleOauth 0).2.2⟩

/-- C4 counterexample: on `exC4` the claim as stated fails.  The snapshot
declares two tags (so the claim demands two entries, each with its own
description), yet the produced index has a single entry whose description
is the second tag's; and the operation of path `/x` — which declares tag
`a` and id `op` — appears nowhere: its record was overwritten by the one of
path `/y` under the same (tag, method, id) triple. -/
theorem get_sorted_docs_counterexample :
    exC4.tags.length = 2 ∧
    get_sorted_docs exC4 = .ok exC4sorted ∧
    (alkeys exC4sorted.paths).length = 1 ∧
    (alget exC4sorted.paths "a").map (fun e => e.description) =
      some "second description" ∧
    lookup3 exC4sorted.paths ("a", "get", "op") =
      some ⟨"/y", "", "", .list [], .dict [], .dict []⟩ ∧
    ("/y" : String) ≠ "/x" :=
  ⟨rfl, rfl, rfl, rfl, rfl, by decide⟩

/-- Witness for `get_sorted_docs_sorted` on the two-tag, three-operation
fixture of the specification. -/
theorem get_sorted_docs_sorted_witness :
    tagsAscii fixtureDoc = true ∧
    all_tags_declared fixtureDoc = true ∧
    (fixtureDoc.tags.map fun tg => tg.name.lower).Nodup ∧
    ((docWrites fixtureDoc.paths).map fun w => w.1).Nodup ∧
    (∃ sd, get_sorted_docs fixtureDoc = .ok sd ∧
      SortedIndexCorrect fixtureDoc sd) :=
  ⟨by decide, by decide, by decide, by decide,
   get_sorted_docs_sorted fixtureDoc (by decide) (by decide) (by decide)
     (by decide)⟩

/-- Witness for `get_sorted_docs_undeclared_tag_error` on a snapshot whose
operation references the undeclared tag `Devices`. -/
theorem get_sorted_docs_undeclared_tag_error_witness :
    tagsAscii exC5 = true ∧
    all_tags_declared exC5 = false ∧
    (∃ t, get_sorted_docs exC5 = .error t) :=
  ⟨by decide, by decide,
   get_sorted_docs_undeclared_tag_error exC5 (by decide) (by decide)⟩

end Projects

